import Mathlib

/-!
Shallow embedding of the calendar allocation engine of the Math Curriculum
Planner (`dateUtils` module): `calculateInstructionalStats`,
`getWeekDateRanges`, `generateEmptyWeeks`, and `distributeLessons`, together
with the data model from `types.ts`.

Modelling conventions:
* Calendar dates are modelled at day granularity as `Int` — the number of
  days since 1970-01-01 (a Thursday, weekday index 4).  Every use of a
  timestamp in the source (`startOfDay`, `endOfDay`, `isBefore`, `isAfter`,
  `format 'yyyy-MM-dd'`, `differenceInCalendarDays`) collapses to
  calendar-day comparisons under the engine's own normalisation, and the
  external interface supplies plain `YYYY-MM-DD` date strings.
* A JavaScript `Int` that may be an Invalid Int is `Option Int`
  (`none` = invalid / unparseable).
* `Lesson.pacing` is a JS number; it is modelled as `Option ℚ` with
  `none` standing for NaN.  Every finite double is a rational and the only
  operations performed on pacing are `Number(p) || 1` (falsy test, i.e.
  NaN or 0) and an order comparison against an integer counter, so the
  rational model is exact on the behaviours the engine exercises.
-/

namespace Planner

/-- JS `getDay`: weekday index, Sunday = 0.  1970-01-01 was a Thursday (4). -/
def getDay (d : Int) : Nat := ((d + 4) % 7).toNat

/-- School week: Sunday (0) to Thursday (4) — `SCHOOL_DAYS` in the source. -/
def SCHOOL_DAYS : List Nat := [0, 1, 2, 3, 4]

/-- `format(d, 'EEEE')` day names, indexed by `getDay`. -/
def dayNames : List String :=
  ["Sunday", "Monday", "Tuesday", "Wednesday", "Thursday", "Friday", "Saturday"]

/-- Month abbreviations for `format(d, 'MMM d')`. -/
def monthNames : List String :=
  ["Jan", "Feb", "Mar", "Apr", "May", "Jun", "Jul", "Aug", "Sep", "Oct", "Nov", "Dec"]

/-- Gregorian civil date (year, month, day) from days since 1970-01-01
(standard era-based conversion). -/
def civilFromDays (z0 : Int) : Int × Nat × Nat :=
  let z := z0 + 719468
  let era := Int.fdiv z 146097
  let doe := (z - era * 146097).toNat
  let yoe := (doe - doe / 1460 + doe / 36524 - doe / 146096) / 365
  let y := (yoe : Int) + era * 400
  let doy := doe - (365 * yoe + yoe / 4 - yoe / 100)
  let mp := (5 * doy + 2) / 153
  let d := doy - (153 * mp + 2) / 5 + 1
  let m := if mp < 10 then mp + 3 else mp - 9
  (if m ≤ 2 then y + 1 else y, m, d)

/-- `format(d, 'MMM d')`. -/
def fmtMMMd (d : Int) : String :=
  let c := civilFromDays d
  monthNames.getD (c.2.1 - 1) "" ++ " " ++ toString c.2.2

/-- The source's Sunday alignment loop:
`while (getDay(x) !== 0) x = addDays(x, -1)`. -/
def sundayOnOrBefore (d : Int) : Int := d - ((d + 4) % 7)

/-- `BlockedDate` from `types.ts`; `date` is the parse result of the stored
ISO string (`parseISOIfNeeded`), `none` when unparseable.  The display-only
`type` category is irrelevant to the engine and omitted. -/
structure BlockedDate where
  date : Option Int
  label : String
deriving Repr, DecidableEq

/-- `BlockedWeek` from `types.ts` (category omitted as display-only). -/
structure BlockedWeek where
  weekNumber : Int
  label : String
  excludeFromCount : Bool
deriving Repr, DecidableEq

/-- `Lesson` from `types.ts`; `pacing : number` with `none` = NaN. -/
structure Lesson where
  id : String
  name : String
  ccss : String
  pacing : Option ℚ
deriving Repr, DecidableEq

/-- `DayPlan` from `types.ts`. -/
structure DayPlan where
  date : Int
  dayName : String
  isBlocked : Bool
  blockLabel : Option String
  lessonId : Option String
  lessonName : Option String
deriving Repr, DecidableEq

/-- `WeekPlan` from `types.ts`. -/
structure WeekPlan where
  weekNumber : Option Int
  displayWeekLabel : String
  dates : String
  days : List DayPlan
  isBlocked : Bool
  blockLabel : Option String
deriving Repr, DecidableEq

/-- Result record of `calculateInstructionalStats`. -/
structure Stats where
  totalDays : Nat
  totalWeeks : Nat
deriving Repr, DecidableEq

/-- `eachDayOfInterval({start, end})`: all calendar days from `s` to `e`
inclusive (empty when `e < s`). -/
def daysInterval (s e : Int) : List Int :=
  (List.range (e + 1 - s).toNat).map (fun i : Nat => s + (i : Int))

/-- The `getWeekNum` helper of `calculateInstructionalStats`:
`Math.floor(differenceInCalendarDays(d, firstSunday) / 7) + 1`. -/
def getWeekNum (start d : Int) : Int :=
  (d - sundayOnOrBefore start) / 7 + 1

/-- Membership of `format(d,'yyyy-MM-dd')` in the `blockedDateStrings` set
(only validly parsed exclusion dates enter the set). -/
def isDateBlocked (blockedDates : List BlockedDate) (d : Int) : Bool :=
  blockedDates.any (fun b => b.date == some d)

/-- `calculateInstructionalStats` from the source. -/
def calculateInstructionalStats (startD endD : Option Int)
    (blockedDates : List BlockedDate) (blockedWeeks : List BlockedWeek) : Stats :=
  match startD, endD with
  | some s, some e =>
    if e < s then ⟨0, 0⟩
    else
      let schoolDays := (daysInterval s e).filter (fun d => SCHOOL_DAYS.contains (getDay d))
      let availableDays := schoolDays.filter (fun d =>
        !isDateBlocked blockedDates d &&
        !blockedWeeks.any (fun bw => bw.weekNumber == getWeekNum s d))
      ⟨availableDays.length, (availableDays.length + 4) / 5⟩
  | _, _ => ⟨0, 0⟩

/-- Output record of `getWeekDateRanges`. -/
structure WeekRange where
  weekNumber : Int
  range : String
deriving Repr, DecidableEq

/-- `getWeekDateRanges` from the source.  The `while` loop runs for week
starts `w0, w0+7, …` while `isBefore(current, endOfDay(end))`, i.e. while
the week-start date is `≤ e`; a week is pushed when it overlaps the range:
`!isAfter(weekStart, finish) && !isBefore(weekEnd, startOfDay(start))`. -/
def getWeekDateRanges (startD endD : Option Int) : List WeekRange :=
  match startD, endD with
  | some s, some e =>
    let w0 := sundayOnOrBefore s
    if e < w0 then []
    else
      (List.range ((e - w0).toNat / 7 + 1)).filterMap (fun k : Nat =>
        let weekStart := w0 + 7 * (k : Int)
        let weekEnd := weekStart + 4
        if weekStart ≤ e ∧ s ≤ weekEnd then
          some ⟨(k : Int) + 1, fmtMMMd weekStart ++ " - " ++ fmtMMMd weekEnd⟩
        else none)
  | _, _ => []

/-- The retained days of one raw week of `generateEmptyWeeks`: the inner
`for (i = 0..6)` loop breaks past `endOfDay(end)`, skips days before
`startOfDay(start)`, keeps `SCHOOL_DAYS` days, and breaks after Thursday
(`dNum === 4`); with `ws` Sunday-aligned this retains `ws+0 … ws+4`
clipped to `[s, e]`. -/
def weekSchoolDays (s e ws : Int) : List Int :=
  ((List.range 5).map (fun i : Nat => ws + (i : Int))).filter
    (fun d => decide (s ≤ d) && decide (d ≤ e))

/-- JS `a || b` on an optional string and an optional string: an empty
string is falsy and falls through. -/
def jsOrString : Option String → Option String → Option String
  | some l, b => if l = "" then b else some l
  | none, b => b

/-- Construction of one `DayPlan` inside `generateEmptyWeeks`. -/
def buildDay (blockedDates : List BlockedDate) (weekBlock : Option BlockedWeek)
    (d : Int) : DayPlan :=
  let dateBlock := blockedDates.find? (fun b => b.date == some d)
  { date := d
    dayName := dayNames.getD (getDay d) ""
    isBlocked := weekBlock.isSome || dateBlock.isSome
    blockLabel := jsOrString (weekBlock.map (fun w => w.label))
      (dateBlock.map (fun b => b.label))
    lessonId := none
    lessonName := none }

/-- Placeholder `DayPlan` for total head/last access on lists already known
to be non-empty. -/
def dummyDay : DayPlan := ⟨0, "", false, none, none, none⟩

/-- The main loop body of `generateEmptyWeeks`, over the remaining
`(weekStart, rawWeekCounter)` pairs, carrying `instructionalWeekCounter`. -/
def buildWeeksAux (s e : Int) (blockedDates : List BlockedDate)
    (blockedWeeks : List BlockedWeek) :
    List (Int × Int) → Int → List WeekPlan
  | [], _ => []
  | (ws, raw) :: rest, instr =>
    let weekBlock := blockedWeeks.find? (fun bw => bw.weekNumber == raw)
    let weekDays := (weekSchoolDays s e ws).map (buildDay blockedDates weekBlock)
    if weekDays.isEmpty then
      buildWeeksAux s e blockedDates blockedWeeks rest instr
    else
      let dates := fmtMMMd (weekDays.headD dummyDay).date ++ " - " ++
        fmtMMMd (weekDays.getLast?.getD dummyDay).date
      match weekBlock with
      | some wb =>
        if wb.excludeFromCount then
          { weekNumber := none
            displayWeekLabel := if wb.label = "" then "Holiday Break" else wb.label
            dates := dates
            days := weekDays
            isBlocked := true
            blockLabel := some wb.label } ::
            buildWeeksAux s e blockedDates blockedWeeks rest instr
        else
          { weekNumber := some instr
            displayWeekLabel := "Week " ++ toString instr
            dates := dates
            days := weekDays
            isBlocked := true
            blockLabel := some wb.label } ::
            buildWeeksAux s e blockedDates blockedWeeks rest (instr + 1)
      | none =>
        { weekNumber := some instr
          displayWeekLabel := "Week " ++ toString instr
          dates := dates
          days := weekDays
          isBlocked := false
          blockLabel := none } ::
          buildWeeksAux s e blockedDates blockedWeeks rest (instr + 1)

/-- The `(weekStart, rawWeekCounter)` pairs the outer `while` loop of
`generateEmptyWeeks` (and of `getWeekDateRanges`) visits: Sunday-aligned
week starts `w0 + 7k` while `weekStart ≤ e`, raw counter `k + 1`. -/
def rawWeekStarts (s e : Int) : List (Int × Int) :=
  let w0 := sundayOnOrBefore s
  if e < w0 then []
  else (List.range ((e - w0).toNat / 7 + 1)).map
    (fun k : Nat => (w0 + 7 * (k : Int), (k : Int) + 1))

/-- `generateEmptyWeeks` from the source (only `isValid` is checked — there
is no inversion check on the range). -/
def generateEmptyWeeks (startD endD : Option Int)
    (blockedDates : List BlockedDate) (blockedWeeks : List BlockedWeek) :
    List WeekPlan :=
  match startD, endD with
  | some s, some e => buildWeeksAux s e blockedDates blockedWeeks (rawWeekStarts s e) 1
  | _, _ => []

/-- `Number(lesson.pacing) || 1`: NaN and 0 are falsy and yield 1. -/
def effThreshold (l : Lesson) : ℚ :=
  match l.pacing with
  | none => 1
  | some q => if q = 0 then 1 else q

/-- The two cursors of `distributeLessons`. -/
structure DistState where
  lessonIdx : Nat
  dayInLessonCounter : Nat
deriving Repr, DecidableEq

/-- `day.lessonId = undefined; day.lessonName = undefined`. -/
def clearDay (d : DayPlan) : DayPlan := { d with lessonId := none, lessonName := none }

/-- One iteration of the day loop of `distributeLessons`. -/
def distStep (lessons : List Lesson) (s : DistState) (day : DayPlan) :
    DayPlan × DistState :=
  let day := clearDay day
  if day.isBlocked then (day, s)
  else
    match lessons.get? s.lessonIdx with
    | none => (day, s)
    | some l =>
      let day := { day with lessonId := some l.id, lessonName := some l.name }
      let c := s.dayInLessonCounter + 1
      if effThreshold l ≤ (c : ℚ) then (day, ⟨s.lessonIdx + 1, 0⟩)
      else (day, ⟨s.lessonIdx, c⟩)

/-- The day loop of `distributeLessons` over one week's days. -/
def distributeDays (lessons : List Lesson) :
    DistState → List DayPlan → List DayPlan × DistState
  | s, [] => ([], s)
  | s, d :: ds =>
    let r := distStep lessons s d
    let rs := distributeDays lessons r.2 ds
    (r.1 :: rs.1, rs.2)

/-- The week loop of `distributeLessons` (the cursors persist across
weeks). -/
def distributeWeeksAux (lessons : List Lesson) :
    DistState → List WeekPlan → List WeekPlan
  | _, [] => []
  | s, w :: ws =>
    let r := distributeDays lessons s w.days
    { w with days := r.1 } :: distributeWeeksAux lessons r.2 ws

/-- `distributeLessons` from the source.  The source deep-copies the input
via a JSON round-trip and mutates only the copy; the embedding is the pure
function it denotes. -/
def distributeLessons (weeks : List WeekPlan) (lessons : List Lesson) :
    List WeekPlan :=
  distributeWeeksAux lessons ⟨0, 0⟩ weeks

/-- All Day Plans of a Week Plan sequence, in chronological order. -/
def planDays (ws : List WeekPlan) : List DayPlan := (ws.map (fun w => w.days)).flatten

/-- Number of unblocked Day Plans. -/
def unblockedCount (ds : List DayPlan) : Nat :=
  (ds.filter (fun d => !d.isBlocked)).length

/-- Number of Day Plans carrying lesson id `i`. -/
def countAssigned (i : String) (ds : List DayPlan) : Nat :=
  (ds.filter (fun d => d.lessonId == some i)).length

/-- The number of unblocked days a lesson consumes before the cursor
advances: the least positive integer `n` with `n ≥ effThreshold l`. -/
def pacingNat (l : Lesson) : Nat := max 1 (Int.ceil (effThreshold l)).toNat

/-- Sum of `pacingNat` over the first `j` lessons. -/
def pacingSumTo (lessons : List Lesson) (j : Nat) : Nat :=
  ((lessons.take j).map pacingNat).sum

/-! ### Arithmetic facts about the Sunday alignment and week indexing -/

lemma sundayOnOrBefore_le (d : Int) : sundayOnOrBefore d ≤ d := by
  unfold sundayOnOrBefore; omega

lemma le_sundayOnOrBefore_add (d : Int) : d < sundayOnOrBefore d + 7 := by
  unfold sundayOnOrBefore; omega

lemma getDay_sunday_add (s : Int) (k i : Int) (h0 : 0 ≤ i) (h7 : i < 7) :
    getDay (sundayOnOrBefore s + 7 * k + i) = i.toNat := by
  unfold getDay sundayOnOrBefore; omega

lemma ediv_seven_eq (k i : Int) (h0 : 0 ≤ i) (h7 : i < 7) : (7 * k + i) / 7 = k := by
  have h : 7 * k + i = i + k * 7 := by ring
  rw [h, Int.add_mul_ediv_right i k (by norm_num), Int.ediv_eq_zero_of_lt h0 h7]
  omega

lemma getWeekNum_sunday_add (s : Int) (k i : Int) (h0 : 0 ≤ i) (h7 : i < 7) :
    getWeekNum s (sundayOnOrBefore s + 7 * k + i) = k + 1 := by
  unfold getWeekNum
  have : sundayOnOrBefore s + 7 * k + i - sundayOnOrBefore s = 7 * k + i := by ring
  rw [this, ediv_seven_eq k i h0 h7]

/-- Decompose any date at or after the aligned Sunday into bucket and
weekday offset. -/
lemma date_decompose (s d : Int) (hw : sundayOnOrBefore s ≤ d) :
    ∃ k i : Int, 0 ≤ k ∧ 0 ≤ i ∧ i < 7 ∧
      d = sundayOnOrBefore s + 7 * k + i ∧ (getDay d : Int) = i := by
  refine ⟨(d - sundayOnOrBefore s) / 7, (d - sundayOnOrBefore s) % 7, ?_, ?_, ?_, ?_, ?_⟩
  · exact Int.ediv_nonneg (by omega) (by omega)
  · exact Int.emod_nonneg _ (by omega)
  · exact Int.emod_lt_of_pos _ (by omega)
  · have := Int.ediv_add_emod (d - sundayOnOrBefore s) 7
    omega
  · unfold getDay sundayOnOrBefore
    omega

/-! ### Membership characterisations -/

lemma mem_daysInterval (s e d : Int) : d ∈ daysInterval s e ↔ s ≤ d ∧ d ≤ e := by
  unfold daysInterval
  simp only [List.mem_map, List.mem_range]
  constructor
  · rintro ⟨i, hi, rfl⟩; omega
  · rintro ⟨h1, h2⟩; exact ⟨(d - s).toNat, by omega, by omega⟩

lemma mem_weekSchoolDays (s e ws d : Int) :
    d ∈ weekSchoolDays s e ws ↔ ∃ i : Nat, i < 5 ∧ d = ws + (i : Int) ∧ s ≤ d ∧ d ≤ e := by
  unfold weekSchoolDays
  simp only [List.mem_filter, List.mem_map, List.mem_range, Bool.and_eq_true,
    decide_eq_true_eq]
  constructor
  · rintro ⟨⟨i, hi, rfl⟩, h1, h2⟩; exact ⟨i, hi, rfl, h1, h2⟩
  · rintro ⟨i, hi, rfl, h1, h2⟩; exact ⟨⟨i, hi, rfl⟩, h1, h2⟩

lemma nodup_weekSchoolDays (s e ws : Int) : (weekSchoolDays s e ws).Nodup := by
  unfold weekSchoolDays
  refine List.Nodup.filter _ (List.Nodup.map ?_ (List.nodup_range 5))
  intro a b hab
  simpa using hab

lemma mem_rawWeekStarts (s e : Int) (p : Int × Int) :
    p ∈ rawWeekStarts s e ↔
      ∃ k : Nat, sundayOnOrBefore s ≤ e ∧ (k : Int) * 7 ≤ e - sundayOnOrBefore s ∧
        p = (sundayOnOrBefore s + 7 * (k : Int), (k : Int) + 1) := by
  unfold rawWeekStarts
  by_cases he : e < sundayOnOrBefore s
  · simp only [if_pos he, List.not_mem_nil, false_iff]
    rintro ⟨k, hk, -⟩; omega
  · simp only [if_neg he, List.mem_map, List.mem_range]
    constructor
    · rintro ⟨k, hk, rfl⟩
      refine ⟨k, by omega, ?_, rfl⟩
      have : k ≤ (e - sundayOnOrBefore s).toNat / 7 := by omega
      omega
    · rintro ⟨k, -, hk, rfl⟩
      refine ⟨k, ?_, rfl⟩
      omega

/-! ### Structure of the weeks produced by `generateEmptyWeeks` -/

lemma planDays_cons (w : WeekPlan) (ws : List WeekPlan) :
    planDays (w :: ws) = w.days ++ planDays ws := by
  simp [planDays]

/-- Every emitted Week Plan comes from one visited `(weekStart, rawWeek)`
pair, with its days, blocking flags and numbering determined by the first
matching week-level exclusion. -/
lemma buildWeeksAux_shape (s e : Int) (bd : List BlockedDate) (bw : List BlockedWeek)
    (pairs : List (Int × Int)) :
    ∀ (instr : Int) (w : WeekPlan), w ∈ buildWeeksAux s e bd bw pairs instr →
      ∃ ws raw, (ws, raw) ∈ pairs ∧
        w.days = (weekSchoolDays s e ws).map
          (buildDay bd (bw.find? (fun b => b.weekNumber == raw))) ∧
        weekSchoolDays s e ws ≠ [] ∧
        w.isBlocked = (bw.find? (fun b => b.weekNumber == raw)).isSome ∧
        w.blockLabel = (bw.find? (fun b => b.weekNumber == raw)).map (fun b => b.label) ∧
        (w.weekNumber = none ↔
          ((bw.find? (fun b => b.weekNumber == raw)).map
            (fun b => b.excludeFromCount)).getD false = true) := by
  induction pairs with
  | nil => intro instr w hw; simp [buildWeeksAux] at hw
  | cons p rest ih =>
    obtain ⟨ws, raw⟩ := p
    intro instr w hw
    simp only [buildWeeksAux] at hw
    by_cases hempty :
        ((weekSchoolDays s e ws).map
          (buildDay bd (bw.find? (fun b => b.weekNumber == raw)))).isEmpty
    · rw [if_pos hempty] at hw
      obtain ⟨ws', raw', hmem, h⟩ := ih instr w hw
      exact ⟨ws', raw', List.mem_cons_of_mem _ hmem, h⟩
    · rw [if_neg hempty] at hw
      have hne : weekSchoolDays s e ws ≠ [] := by
        intro h0
        rw [h0] at hempty
        simp at hempty
      rcases hfind : bw.find? (fun b => b.weekNumber == raw) with _ | b
      · simp only [hfind] at hw
        rcases List.mem_cons.mp hw with rfl | hw'
        · exact ⟨ws, raw, List.mem_cons_self _ _, by simp [hfind], hne,
            by simp [hfind], by simp [hfind], by simp [hfind]⟩
        · obtain ⟨ws', raw', hmem, h⟩ := ih (instr + 1) w hw'
          exact ⟨ws', raw', List.mem_cons_of_mem _ hmem, h⟩
      · simp only [hfind] at hw
        by_cases hex : b.excludeFromCount
        · rw [if_pos hex] at hw
          rcases List.mem_cons.mp hw with rfl | hw'
          · exact ⟨ws, raw, List.mem_cons_self _ _, by simp [hfind], hne,
              by simp [hfind], by simp [hfind], by simp [hfind, hex]⟩
          · obtain ⟨ws', raw', hmem, h⟩ := ih instr w hw'
            exact ⟨ws', raw', List.mem_cons_of_mem _ hmem, h⟩
        · rw [if_neg hex] at hw
          rcases List.mem_cons.mp hw with rfl | hw'
          · refine ⟨ws, raw, List.mem_cons_self _ _, by simp [hfind], hne,
              by simp [hfind], by simp [hfind], by simp [hfind, hex]⟩
          · obtain ⟨ws', raw', hmem, h⟩ := ih (instr + 1) w hw'
            exact ⟨ws', raw', List.mem_cons_of_mem _ hmem, h⟩

lemma getWeekNum_of_mem_weekSchoolDays (s e : Int) (k : Nat) (d : Int)
    (hd : d ∈ weekSchoolDays s e (sundayOnOrBefore s + 7 * (k : Int))) :
    getWeekNum s d = (k : Int) + 1 := by
  rw [mem_weekSchoolDays] at hd
  obtain ⟨i, hi5, rfl, -, -⟩ := hd
  have h := getWeekNum_sunday_add s (k : Int) (i : Int) (by omega) (by omega)
  calc getWeekNum s (sundayOnOrBefore s + 7 * (k : Int) + (i : Int))
      = (k : Int) + 1 := h

/-- The present `weekNumber` values form the gapless run
`instr, instr + 1, …` in output order. -/
lemma buildWeeksAux_weekNumbers (s e : Int) (bd : List BlockedDate)
    (bw : List BlockedWeek) (pairs : List (Int × Int)) :
    ∀ instr : Int, ∃ m : Nat,
      (buildWeeksAux s e bd bw pairs instr).filterMap (fun w => w.weekNumber) =
        (List.range m).map (fun i : Nat => instr + (i : Int)) := by
  induction pairs with
  | nil => intro instr; exact ⟨0, by simp [buildWeeksAux]⟩
  | cons p rest ih =>
    obtain ⟨ws, raw⟩ := p
    intro instr
    simp only [buildWeeksAux]
    by_cases hempty :
        ((weekSchoolDays s e ws).map
          (buildDay bd (bw.find? (fun b => b.weekNumber == raw)))).isEmpty
    · rw [if_pos hempty]; exact ih instr
    · rw [if_neg hempty]
      rcases hfind : bw.find? (fun b => b.weekNumber == raw) with _ | b
      · simp only [hfind]
        obtain ⟨m, hm⟩ := ih (instr + 1)
        refine ⟨m + 1, ?_⟩
        rw [List.filterMap_cons]
        simp only [hm, List.range_succ_eq_map, List.map_cons, List.map_map]
        refine congrArg₂ _ (by omega) (List.map_congr_left ?_)
        intro a _
        simp only [Function.comp_apply, Nat.succ_eq_add_one]
        push_cast
        ring
      · simp only [hfind]
        by_cases hex : b.excludeFromCount
        · rw [if_pos hex]
          rw [List.filterMap_cons]
          exact ih instr
        · rw [if_neg hex]
          obtain ⟨m, hm⟩ := ih (instr + 1)
          refine ⟨m + 1, ?_⟩
          rw [List.filterMap_cons]
          simp only [hm, List.range_succ_eq_map, List.map_cons, List.map_map]
          refine congrArg₂ _ (by omega) (List.map_congr_left ?_)
          intro a _
          simp only [Function.comp_apply, Nat.succ_eq_add_one]
          push_cast
          ring

/-- The flattened day list of the built weeks: one bucket of built days per
visited pair (weeks whose bucket is empty contribute the empty list). -/
lemma planDays_buildWeeksAux (s e : Int) (bd : List BlockedDate)
    (bw : List BlockedWeek) (pairs : List (Int × Int)) :
    ∀ instr : Int,
      planDays (buildWeeksAux s e bd bw pairs instr) =
        (pairs.map (fun p => (weekSchoolDays s e p.1).map
          (buildDay bd (bw.find? (fun b => b.weekNumber == p.2))))).flatten := by
  induction pairs with
  | nil => intro instr; simp [buildWeeksAux, planDays]
  | cons p rest ih =>
    obtain ⟨ws, raw⟩ := p
    intro instr
    simp only [buildWeeksAux]
    by_cases hempty :
        ((weekSchoolDays s e ws).map
          (buildDay bd (bw.find? (fun b => b.weekNumber == raw)))).isEmpty
    · rw [if_pos hempty]
      rw [List.isEmpty_iff] at hempty
      simp only [List.map_cons, List.flatten_cons, hempty, List.nil_append]
      exact ih instr
    · rw [if_neg hempty]
      rcases hfind : bw.find? (fun b => b.weekNumber == raw) with _ | b
      · simp only [hfind, List.map_cons, List.flatten_cons, planDays_cons, ih (instr + 1)]
      · simp only [hfind]
        by_cases hex : b.excludeFromCount
        · rw [if_pos hex]
          simp only [hfind, List.map_cons, List.flatten_cons, planDays_cons, ih instr]
        · rw [if_neg hex]
          simp only [hfind, List.map_cons, List.flatten_cons, planDays_cons, ih (instr + 1)]

lemma headD_map {α β : Type} (f : α → β) (l : List α) (d0 : β) (d1 : α)
    (h : l ≠ []) : (l.map f).headD d0 = f (l.headD d1) := by
  cases l with
  | nil => exact absurd rfl h
  | cons a t => rfl

lemma headD_mem {α : Type} (l : List α) (d1 : α) (h : l ≠ []) : l.headD d1 ∈ l := by
  cases l with
  | nil => exact absurd rfl h
  | cons a t => exact List.mem_cons_self _ _

lemma findWeek_isSome_iff (bw : List BlockedWeek) (raw : Int) :
    (bw.find? (fun b => b.weekNumber == raw)).isSome = true ↔
      ∃ b ∈ bw, b.weekNumber = raw := by
  rw [List.find?_isSome]
  simp

lemma findDate_isSome_iff (bd : List BlockedDate) (d : Int) :
    (bd.find? (fun b => b.date == some d)).isSome = true ↔
      ∃ b ∈ bd, b.date = some d := by
  rw [List.find?_isSome]
  simp

/-! ### Claim theorems about the week structure -/

/-- C4.  In the Week Plans produced by `generateEmptyWeeks`, a Day Plan is
blocked if and only if its calendar date matches some day-level exclusion
(at date granularity; unparseable exclusion dates never match) or some
week-level exclusion's `weekNumber` equals the day's raw week index. -/
theorem generateEmptyWeeks_blocked_iff (s e : Int) (bd : List BlockedDate)
    (bw : List BlockedWeek) :
    ∀ w ∈ generateEmptyWeeks (some s) (some e) bd bw, ∀ d ∈ w.days,
      (d.isBlocked = true ↔
        (∃ b ∈ bd, b.date = some d.date) ∨
          ∃ k ∈ bw, k.weekNumber = getWeekNum s d.date) := by
  intro w hw d hd
  obtain ⟨ws, raw, hpair, hdays, hne, hbl, hlbl, hiff⟩ :=
    buildWeeksAux_shape s e bd bw (rawWeekStarts s e) 1 w hw
  rw [mem_rawWeekStarts] at hpair
  obtain ⟨k, hw0e, hk7, hp⟩ := hpair
  rw [Prod.mk.injEq] at hp
  obtain ⟨rfl, rfl⟩ := hp
  rw [hdays, List.mem_map] at hd
  obtain ⟨d0, hd0, rfl⟩ := hd
  have hraw : getWeekNum s d0 = (k : Int) + 1 :=
    getWeekNum_of_mem_weekSchoolDays s e k d0 hd0
  simp only [buildDay, Bool.or_eq_true]
  rw [hraw, or_comm]
  rw [findWeek_isSome_iff, findDate_isSome_iff]

/-- C4 witness: a concrete instantiation of
`generateEmptyWeeks_blocked_iff` at a blocked day. -/
theorem generateEmptyWeeks_blocked_iff_witness :
    (((generateEmptyWeeks (some 3) (some 3) [⟨some 3, "Exam"⟩] []).headD
        ⟨none, "", "", [], false, none⟩).days.headD dummyDay).isBlocked = true :=
  (generateEmptyWeeks_blocked_iff 3 3 [⟨some 3, "Exam"⟩] []
    ((generateEmptyWeeks (some 3) (some 3) [⟨some 3, "Exam"⟩] []).headD
        ⟨none, "", "", [], false, none⟩) (by decide)
    (((generateEmptyWeeks (some 3) (some 3) [⟨some 3, "Exam"⟩] []).headD
        ⟨none, "", "", [], false, none⟩).days.headD dummyDay) (by decide)).mpr
    (Or.inl ⟨⟨some 3, "Exam"⟩, by decide, by decide⟩)

/-- C2, counterexample to the claim as stated: when two week-level
exclusions match the same raw week — the first with
`excludeFromCount = false`, the second with `excludeFromCount = true` —
the produced week keeps a present `weekNumber` (the source matches with
`find`, which returns the first), although an exclusion with
`excludeFromCount = true` did match the raw week index. -/
theorem weekNumber_absent_iff_counterexample :
    ((generateEmptyWeeks (some 3) (some 3) []
        [⟨1, "A", false⟩, ⟨1, "B", true⟩]).map (fun w => w.weekNumber) = [some 1]) ∧
      ∃ b ∈ ([⟨1, "A", false⟩, ⟨1, "B", true⟩] : List BlockedWeek),
        b.weekNumber = getWeekNum 3
          (((generateEmptyWeeks (some 3) (some 3) []
            [⟨1, "A", false⟩, ⟨1, "B", true⟩]).headD
              ⟨none, "", "", [], false, none⟩).days.headD dummyDay).date ∧
          b.excludeFromCount = true := by
  constructor
  · decide
  · exact ⟨⟨1, "B", true⟩, by decide, by decide, rfl⟩

/-- C2, amended.  The present `weekNumber` values of the output of
`generateEmptyWeeks` are exactly `1, 2, …, k` in chronological order with
no gaps, and a Week Plan's `weekNumber` is absent if and only if the FIRST
week-level exclusion (in list order) matching its raw week index has
`excludeFromCount = true`. -/
theorem weekNumbers_dense_and_absent_iff_first_match (s e : Int)
    (bd : List BlockedDate) (bw : List BlockedWeek) :
    (∃ k : Nat,
      (generateEmptyWeeks (some s) (some e) bd bw).filterMap (fun w => w.weekNumber) =
        (List.range k).map (fun i : Nat => (i : Int) + 1)) ∧
    ∀ w ∈ generateEmptyWeeks (some s) (some e) bd bw,
      (w.weekNumber = none ↔
        ((bw.find? (fun b => b.weekNumber ==
            getWeekNum s ((w.days.headD dummyDay).date))).map
          (fun b => b.excludeFromCount)).getD false = true) := by
  constructor
  · obtain ⟨m, hm⟩ := buildWeeksAux_weekNumbers s e bd bw (rawWeekStarts s e) 1
    refine ⟨m, ?_⟩
    unfold generateEmptyWeeks
    rw [hm]
    refine List.map_congr_left ?_
    intro a _
    omega
  · intro w hw
    obtain ⟨ws, raw, hpair, hdays, hne, hbl, hlbl, hiff⟩ :=
      buildWeeksAux_shape s e bd bw (rawWeekStarts s e) 1 w hw
    rw [mem_rawWeekStarts] at hpair
    obtain ⟨k, hw0e, hk7, hp⟩ := hpair
    rw [Prod.mk.injEq] at hp
    obtain ⟨rfl, rfl⟩ := hp
    have hhead : (w.days.headD dummyDay).date =
        (weekSchoolDays s e (sundayOnOrBefore s + 7 * (k : Int))).headD 0 := by
      rw [hdays, headD_map (buildDay bd _) _ dummyDay 0 hne]
      rfl
    have hmem := headD_mem _ (0 : Int) hne
    have hraw : getWeekNum s ((w.days.headD dummyDay).date) = (k : Int) + 1 := by
      rw [hhead]
      exact getWeekNum_of_mem_weekSchoolDays s e k _ hmem
    rw [hraw]
    exact hiff

/-- C2 amended, witness: a week excluded from the count by the first (and
only) matching exclusion has an absent `weekNumber`. -/
theorem weekNumbers_dense_witness :
    ((generateEmptyWeeks (some 3) (some 9) [] [⟨1, "B", true⟩]).headD
        ⟨none, "", "", [], false, none⟩).weekNumber = none :=
  ((weekNumbers_dense_and_absent_iff_first_match 3 9 [] [⟨1, "B", true⟩]).2
    ((generateEmptyWeeks (some 3) (some 9) [] [⟨1, "B", true⟩]).headD
        ⟨none, "", "", [], false, none⟩) (by decide)).mpr (by decide)

/-- C8, counterexample to the claim as stated: a week-level exclusion with
an EMPTY label matches the day's raw week, but `blockLabel` is taken from
the matching day-level exclusion ("X"), because the source computes
`weekBlock?.label || dateBlock?.label` and the empty string is falsy. -/
theorem blockLabel_counterexample :
    (((generateEmptyWeeks (some 3) (some 3) [⟨some 3, "X"⟩]
        [⟨1, "", false⟩]).headD ⟨none, "", "", [], false, none⟩).days.headD
          dummyDay).isBlocked = true ∧
    (((generateEmptyWeeks (some 3) (some 3) [⟨some 3, "X"⟩]
        [⟨1, "", false⟩]).headD ⟨none, "", "", [], false, none⟩).days.headD
          dummyDay).blockLabel = some "X" ∧
    ∃ b ∈ ([⟨1, "", false⟩] : List BlockedWeek),
      b.weekNumber = getWeekNum 3
        ((((generateEmptyWeeks (some 3) (some 3) [⟨some 3, "X"⟩]
          [⟨1, "", false⟩]).headD ⟨none, "", "", [], false, none⟩).days.headD
            dummyDay).date) ∧ b.label ≠ "X" := by
  refine ⟨by decide, by decide, ⟨1, "", false⟩, by decide, by decide, by decide⟩

/-- C8, amended.  A blocked day's `blockLabel` is the first matching
week-level exclusion's label when such an exclusion exists AND its label is
non-empty; otherwise it is the first matching day-level exclusion's label
(absent when no day-level exclusion matches). -/
theorem blockLabel_eq_jsOr (s e : Int) (bd : List BlockedDate)
    (bw : List BlockedWeek) :
    ∀ w ∈ generateEmptyWeeks (some s) (some e) bd bw, ∀ d ∈ w.days,
      d.isBlocked = true →
      d.blockLabel =
        jsOrString
          ((bw.find? (fun b => b.weekNumber == getWeekNum s d.date)).map
            (fun b => b.label))
          ((bd.find? (fun b => b.date == some d.date)).map (fun b => b.label)) := by
  intro w hw d hd _
  obtain ⟨ws, raw, hpair, hdays, hne, hbl, hlbl, hiff⟩ :=
    buildWeeksAux_shape s e bd bw (rawWeekStarts s e) 1 w hw
  rw [mem_rawWeekStarts] at hpair
  obtain ⟨k, hw0e, hk7, hp⟩ := hpair
  rw [Prod.mk.injEq] at hp
  obtain ⟨rfl, rfl⟩ := hp
  rw [hdays, List.mem_map] at hd
  obtain ⟨d0, hd0, rfl⟩ := hd
  have hraw : getWeekNum s d0 = (k : Int) + 1 :=
    getWeekNum_of_mem_weekSchoolDays s e k d0 hd0
  simp only [buildDay]
  rw [hraw]

/-- C8 amended, witness: with a non-empty week label, the week label wins
over the matching day-level exclusion's label. -/
theorem blockLabel_eq_jsOr_witness :
    (((generateEmptyWeeks (some 3) (some 3) [⟨some 3, "X"⟩]
        [⟨1, "W", false⟩]).headD ⟨none, "", "", [], false, none⟩).days.headD
          dummyDay).blockLabel = some "W" := by
  have h := blockLabel_eq_jsOr 3 3 [⟨some 3, "X"⟩] [⟨1, "W", false⟩]
    ((generateEmptyWeeks (some 3) (some 3) [⟨some 3, "X"⟩]
        [⟨1, "W", false⟩]).headD ⟨none, "", "", [], false, none⟩) (by decide)
    ((((generateEmptyWeeks (some 3) (some 3) [⟨some 3, "X"⟩]
        [⟨1, "W", false⟩]).headD ⟨none, "", "", [], false, none⟩)).days.headD
          dummyDay) (by decide) (by decide)
  rw [h]
  decide

/-! ### C9: week ranges vs. emitted weeks -/

lemma weekSchoolDays_isEmpty_iff (s e : Int) (k : Nat) (hse : s ≤ e)
    (hk : (k : Int) * 7 ≤ e - sundayOnOrBefore s) :
    (weekSchoolDays s e (sundayOnOrBefore s + 7 * (k : Int))).isEmpty = true ↔
      ¬ s ≤ sundayOnOrBefore s + 7 * (k : Int) + 4 := by
  have w0le : sundayOnOrBefore s ≤ s := sundayOnOrBefore_le s
  rw [List.isEmpty_iff]
  constructor
  · intro hnil hle
    have : ∃ d, d ∈ weekSchoolDays s e (sundayOnOrBefore s + 7 * (k : Int)) := by
      by_cases hsw : s ≤ sundayOnOrBefore s + 7 * (k : Int)
      · refine ⟨sundayOnOrBefore s + 7 * (k : Int),
          (mem_weekSchoolDays _ _ _ _).mpr ⟨0, by omega, by omega, by omega, by omega⟩⟩
      · refine ⟨s, (mem_weekSchoolDays _ _ _ _).mpr
          ⟨(s - (sundayOnOrBefore s + 7 * (k : Int))).toNat, by omega, by omega,
            le_refl s, hse⟩⟩
    obtain ⟨d, hd⟩ := this
    rw [hnil] at hd
    exact absurd hd (List.not_mem_nil d)
  · intro hgt
    rw [List.eq_nil_iff_forall_not_mem]
    intro d hd
    rw [mem_weekSchoolDays] at hd
    obtain ⟨i, hi5, rfl, h1, h2⟩ := hd
    omega

lemma isEmpty_map' {α β : Type} (f : α → β) (l : List α) :
    (l.map f).isEmpty = l.isEmpty := by
  cases l <;> rfl

/-- With no week-level exclusions, the raw week indices of the emitted
weeks are the visited raw counters whose clipped school-day bucket is
non-empty. -/
lemma buildWeeksAux_rawIdx (s e : Int) (bd : List BlockedDate)
    (pairs : List (Int × Int))
    (H : ∀ p ∈ pairs, ∃ k : Nat,
      p = (sundayOnOrBefore s + 7 * (k : Int), (k : Int) + 1)) :
    ∀ instr : Int,
      (buildWeeksAux s e bd [] pairs instr).map
        (fun w => getWeekNum s ((w.days.headD dummyDay).date)) =
      pairs.filterMap (fun p =>
        if (weekSchoolDays s e p.1).isEmpty then none else some p.2) := by
  induction pairs with
  | nil => intro instr; simp [buildWeeksAux]
  | cons p rest ih =>
    obtain ⟨ws, raw⟩ := p
    intro instr
    obtain ⟨k, hpk⟩ := H _ (List.mem_cons_self _ _)
    have Hrest := fun p hp => H p (List.mem_cons_of_mem _ hp)
    rw [Prod.mk.injEq] at hpk
    obtain ⟨rfl, rfl⟩ := hpk
    simp only [buildWeeksAux, List.find?_nil, List.filterMap_cons, isEmpty_map']
    by_cases hempty :
        (weekSchoolDays s e (sundayOnOrBefore s + 7 * (k : Int))).isEmpty
    · rw [if_pos hempty, if_pos hempty]
      exact ih Hrest instr
    · rw [if_neg hempty, if_neg hempty]
      rw [List.map_cons]
      have hne : weekSchoolDays s e (sundayOnOrBefore s + 7 * (k : Int)) ≠ [] := by
        intro h0
        rw [h0] at hempty
        exact hempty rfl
      have hhead :
          (((weekSchoolDays s e (sundayOnOrBefore s + 7 * (k : Int))).map
            (buildDay bd none)).headD dummyDay).date =
          (weekSchoolDays s e (sundayOnOrBefore s + 7 * (k : Int))).headD 0 := by
        rw [headD_map (buildDay bd none) _ dummyDay 0 hne]
        rfl
    -- goal: getWeekNum of head :: …  = some (k+1) :: …
      refine congrArg₂ _ ?_ (ih Hrest (instr + 1))
      show getWeekNum s _ = (k : Int) + 1
      rw [hhead]
      exact getWeekNum_of_mem_weekSchoolDays s e k _ (headD_mem _ 0 hne)

/-- C9.  For a valid range the `weekNumber` values listed by
`getWeekDateRanges` are exactly the raw week indices of the weeks emitted
by `generateEmptyWeeks` with empty exclusion lists (in order); and when the
range starts on a Friday or Saturday, raw week 1 is skipped, so the first
listed raw week number (if any) is 2. -/
theorem weekRanges_match_emittedWeeks (s e : Int) (hse : s ≤ e) :
    ((getWeekDateRanges (some s) (some e)).map (fun r => r.weekNumber) =
      (generateEmptyWeeks (some s) (some e) [] []).map
        (fun w => getWeekNum s ((w.days.headD dummyDay).date))) ∧
    ((getDay s = 5 ∨ getDay s = 6) →
      ∀ x : Int, ((getWeekDateRanges (some s) (some e)).map
        (fun r => r.weekNumber)).head? = some x → x = 2) := by
  have w0le : sundayOnOrBefore s ≤ s := sundayOnOrBefore_le s
  have hew0 : ¬ e < sundayOnOrBefore s := by omega
  have hL : (getWeekDateRanges (some s) (some e)).map (fun r => r.weekNumber) =
      (List.range ((e - sundayOnOrBefore s).toNat / 7 + 1)).filterMap
        (fun k : Nat =>
          if sundayOnOrBefore s + 7 * (k : Int) ≤ e ∧
              s ≤ sundayOnOrBefore s + 7 * (k : Int) + 4 then
            some ((k : Int) + 1)
          else none) := by
    simp only [getWeekDateRanges, if_neg hew0, List.map_filterMap]
    refine List.filterMap_congr ?_
    intro k _
    by_cases hc : sundayOnOrBefore s + 7 * (k : Int) ≤ e ∧
        s ≤ sundayOnOrBefore s + 7 * (k : Int) + 4
    · rw [if_pos hc, if_pos hc]
      rfl
    · rw [if_neg hc, if_neg hc]
      rfl
  constructor
  · rw [hL]
    have hR := buildWeeksAux_rawIdx s e [] (rawWeekStarts s e)
      (by
        intro p hp
        rw [mem_rawWeekStarts] at hp
        obtain ⟨k, h1, h2, hpk⟩ := hp
        exact ⟨k, hpk⟩) 1
    show _ = (buildWeeksAux s e [] [] (rawWeekStarts s e) 1).map
      (fun w => getWeekNum s ((w.days.headD dummyDay).date))
    rw [hR]
    unfold rawWeekStarts
    rw [if_neg hew0, List.filterMap_map]
    refine List.filterMap_congr ?_
    intro k hk
    rw [List.mem_range] at hk
    have hk7 : (k : Int) * 7 ≤ e - sundayOnOrBefore s := by omega
    have hiff := weekSchoolDays_isEmpty_iff s e k hse hk7
    simp only [Function.comp_apply]
    by_cases hc2 : s ≤ sundayOnOrBefore s + 7 * (k : Int) + 4
    · rw [if_pos ⟨by omega, hc2⟩, if_neg (by rw [hiff]; omega)]
    · rw [if_neg (by omega), if_pos (by rw [hiff]; omega)]
  · intro hday x hx
    rw [hL] at hx
    rw [List.range_succ_eq_map, List.filterMap_cons] at hx
    have hg0 : ¬ (sundayOnOrBefore s + 7 * ((0 : Nat) : Int) ≤ e ∧
        s ≤ sundayOnOrBefore s + 7 * ((0 : Nat) : Int) + 4) := by
      unfold getDay at hday
      unfold sundayOnOrBefore
      push_cast
      omega
    rw [if_neg hg0] at hx
    rcases hm : (e - sundayOnOrBefore s).toNat / 7 with _ | m
    · rw [hm] at hx
      simp at hx
    · rw [hm, List.range_succ_eq_map, List.map_cons, List.filterMap_cons] at hx
      have hg1 : (sundayOnOrBefore s + 7 * ((Nat.succ 0 : Nat) : Int) ≤ e ∧
          s ≤ sundayOnOrBefore s + 7 * ((Nat.succ 0 : Nat) : Int) + 4) := by
        unfold getDay at hday
        unfold sundayOnOrBefore at *
        push_cast
        omega
      rw [if_pos hg1] at hx
      rw [List.head?_cons] at hx
      have : ((Nat.succ 0 : Nat) : Int) + 1 = 2 := by norm_num
      rw [this] at hx
      exact (Option.some.injEq _ _ ▸ hx).symm

/-- C9 witness: a range starting on Friday 1970-01-02; both functions list
raw weeks 2 and 3 and skip raw week 1, so the first listed raw week is 2. -/
theorem weekRanges_match_emittedWeeks_witness :
    ((getWeekDateRanges (some 1) (some 10)).map (fun r => r.weekNumber) =
      (generateEmptyWeeks (some 1) (some 10) [] []).map
        (fun w => getWeekNum 1 ((w.days.headD dummyDay).date))) ∧ (2 : Int) = 2 :=
  ⟨(weekRanges_match_emittedWeeks 1 10 (by decide)).1,
    (weekRanges_match_emittedWeeks 1 10 (by decide)).2 (by decide) 2 (by decide)⟩

/-! ### C1: aggregate stats agree with the generated weeks -/

lemma find?_isSome_eq_any {α : Type} (p : α → Bool) (l : List α) :
    (l.find? p).isSome = l.any p := by
  induction l with
  | nil => rfl
  | cons a t ih =>
    rw [List.any_cons]
    cases hpa : p a
    · rw [List.find?_cons_of_neg _ (by simp [hpa]), ih]
      simp [hpa]
    · rw [List.find?_cons_of_pos _ hpa]
      simp

lemma contains_SCHOOL_DAYS (m : Nat) : SCHOOL_DAYS.contains m = true ↔ m < 5 := by
  constructor
  · intro h
    have : m ∈ SCHOOL_DAYS := by
      rw [← List.elem_iff]
      exact h
    simp only [SCHOOL_DAYS, List.mem_cons, List.not_mem_nil, or_false] at this
    omega
  · intro h
    have : m ∈ SCHOOL_DAYS := by
      simp only [SCHOOL_DAYS, List.mem_cons, List.not_mem_nil, or_false]
      omega
    rw [← List.elem_iff] at this
    exact this

lemma weekSchoolDays_inverted (s e ws : Int) (h : e < s) :
    weekSchoolDays s e ws = [] := by
  rw [List.eq_nil_iff_forall_not_mem]
  intro d hd
  rw [mem_weekSchoolDays] at hd
  obtain ⟨i, -, -, h1, h2⟩ := hd
  omega

/-- The clipped school-day buckets, concatenated, are a permutation of the
school days of the interval. -/
lemma buckets_perm (s e : Int) :
    (((rawWeekStarts s e).map (fun p => weekSchoolDays s e p.1)).flatten).Perm
      ((daysInterval s e).filter (fun d => SCHOOL_DAYS.contains (getDay d))) := by
  have hnd1 : (((rawWeekStarts s e).map (fun p => weekSchoolDays s e p.1)).flatten).Nodup := by
    rw [List.nodup_flatten]
    constructor
    · intro l hl
      rw [List.mem_map] at hl
      obtain ⟨p, -, rfl⟩ := hl
      exact nodup_weekSchoolDays s e p.1
    · unfold rawWeekStarts
      by_cases he : e < sundayOnOrBefore s
      · rw [if_pos he]
        exact List.Pairwise.nil
      · rw [if_neg he, List.map_map]
        refine List.Pairwise.map _ ?_ (List.pairwise_lt_range _)
        intro a b hab
        intro x hx hx'
        simp only [Function.comp_apply] at hx hx'
        rw [mem_weekSchoolDays] at hx hx'
        obtain ⟨i, hi, rfl, -, -⟩ := hx
        obtain ⟨j, hj, hxeq, -, -⟩ := hx'
        omega
  have hnd2 : ((daysInterval s e).filter
      (fun d => SCHOOL_DAYS.contains (getDay d))).Nodup := by
    refine List.Nodup.filter _ ?_
    unfold daysInterval
    refine List.Nodup.map ?_ (List.nodup_range _)
    intro a b hab
    simpa using hab
  rw [List.perm_ext_iff_of_nodup hnd1 hnd2]
  intro d
  rw [List.mem_flatten, List.mem_filter, mem_daysInterval]
  constructor
  · rintro ⟨l, hl, hdl⟩
    rw [List.mem_map] at hl
    obtain ⟨p, hp, rfl⟩ := hl
    rw [mem_rawWeekStarts] at hp
    obtain ⟨k, -, -, rfl⟩ := hp
    rw [mem_weekSchoolDays] at hdl
    obtain ⟨i, hi5, rfl, h1, h2⟩ := hdl
    refine ⟨⟨h1, h2⟩, ?_⟩
    rw [contains_SCHOOL_DAYS]
    rw [getDay_sunday_add s (k : Int) (i : Int) (by omega) (by omega)]
    omega
  · rintro ⟨⟨h1, h2⟩, hcont⟩
    rw [contains_SCHOOL_DAYS] at hcont
    have hw0 : sundayOnOrBefore s ≤ d := by
      have := sundayOnOrBefore_le s
      omega
    obtain ⟨k', i, hk0, hi0, hi7, hdec, hgd⟩ := date_decompose s d hw0
    have hi5 : i < 5 := by omega
    refine ⟨weekSchoolDays s e (sundayOnOrBefore s + 7 * ((k'.toNat : Nat) : Int)), ?_, ?_⟩
    · rw [List.mem_map]
      refine ⟨(sundayOnOrBefore s + 7 * ((k'.toNat : Nat) : Int), ((k'.toNat : Nat) : Int) + 1),
        ?_, rfl⟩
      rw [mem_rawWeekStarts]
      exact ⟨k'.toNat, by omega, by omega, by rw [Prod.mk.injEq]; exact ⟨rfl, rfl⟩⟩
    · rw [mem_weekSchoolDays]
      exact ⟨i.toNat, by omega, by omega, h1, h2⟩

/-- C1.  `totalDays` computed by `calculateInstructionalStats` equals the
number of unblocked Day Plans across all Week Plans produced by
`generateEmptyWeeks` on the same inputs (for any inputs — on an inverted
range both sides are zero). -/
theorem totalDays_eq_unblocked_count (s e : Int) (bd : List BlockedDate)
    (bw : List BlockedWeek) :
    (calculateInstructionalStats (some s) (some e) bd bw).totalDays =
      unblockedCount (planDays (generateEmptyWeeks (some s) (some e) bd bw)) := by
  have hdays : planDays (generateEmptyWeeks (some s) (some e) bd bw) =
      ((rawWeekStarts s e).map (fun p => (weekSchoolDays s e p.1).map
        (buildDay bd (bw.find? (fun b => b.weekNumber == p.2))))).flatten := by
    unfold generateEmptyWeeks
    exact planDays_buildWeeksAux s e bd bw (rawWeekStarts s e) 1
  by_cases hinv : e < s
  · simp only [calculateInstructionalStats, if_pos hinv]
    rw [hdays]
    have : ∀ p ∈ rawWeekStarts s e, (weekSchoolDays s e p.1).map
        (buildDay bd (bw.find? (fun b => b.weekNumber == p.2))) = ([] : List DayPlan) := by
      intro p _
      rw [weekSchoolDays_inverted s e p.1 hinv]
      rfl
    rw [List.flatten_eq_nil_iff.mpr ?_]
    · rfl
    · intro l hl
      rw [List.mem_map] at hl
      obtain ⟨p, hp, rfl⟩ := hl
      exact this p hp
  · simp only [calculateInstructionalStats, if_neg hinv]
    rw [hdays]
    unfold unblockedCount
    rw [← List.countP_eq_length_filter, ← List.countP_eq_length_filter]
    rw [List.countP_flatten, List.map_map]
    have hcomp : ∀ p ∈ rawWeekStarts s e,
        ((List.countP (fun d => !d.isBlocked)) ∘
          (fun p => (weekSchoolDays s e p.1).map
            (buildDay bd (bw.find? (fun b => b.weekNumber == p.2))))) p =
        List.countP (fun d =>
          !isDateBlocked bd d && !bw.any (fun b2 => b2.weekNumber == getWeekNum s d))
          (weekSchoolDays s e p.1) := by
      intro p hp
      rw [mem_rawWeekStarts] at hp
      obtain ⟨k, -, -, rfl⟩ := hp
      simp only [Function.comp_apply]
      rw [List.countP_map]
      refine List.countP_congr ?_
      intro d hd
      have hraw : getWeekNum s d = (k : Int) + 1 :=
        getWeekNum_of_mem_weekSchoolDays s e k d hd
      simp only [Function.comp_apply, buildDay]
      rw [find?_isSome_eq_any, find?_isSome_eq_any, hraw]
      cases hA : List.any bw (fun b => b.weekNumber == (k : Int) + 1) <;>
        cases hB : List.any bd (fun b => b.date == some d) <;>
          simp [isDateBlocked, hA, hB]
    rw [List.map_congr_left hcomp]
    have hmm2 : (rawWeekStarts s e).map (fun a =>
        List.countP (fun d =>
          !isDateBlocked bd d && !bw.any (fun b2 => b2.weekNumber == getWeekNum s d))
          (weekSchoolDays s e a.1)) =
      ((rawWeekStarts s e).map (fun a => weekSchoolDays s e a.1)).map
        (List.countP (fun d =>
          !isDateBlocked bd d && !bw.any (fun b2 => b2.weekNumber == getWeekNum s d))) := by
      rw [List.map_map]
      rfl
    rw [hmm2, ← List.countP_flatten]
    exact ((buckets_perm s e).countP_eq _).symm

/-! ### C5: degradation on invalid / inverted ranges -/

lemma buildWeeksAux_inverted (s e : Int) (bd : List BlockedDate)
    (bw : List BlockedWeek) (h : e < s) :
    ∀ (pairs : List (Int × Int)) (instr : Int),
      buildWeeksAux s e bd bw pairs instr = [] := by
  intro pairs
  induction pairs with
  | nil => intro instr; rfl
  | cons p rest ih =>
    obtain ⟨ws, raw⟩ := p
    intro instr
    simp only [buildWeeksAux]
    rw [weekSchoolDays_inverted s e ws h]
    simp only [List.map_nil]
    have hemp : ([] : List DayPlan).isEmpty = true := rfl
    rw [if_pos hemp]
    exact ih instr

/-- C5, counterexample to the claim as stated: on the inverted range
start = Wednesday 1970-01-07 (day 6), end = Monday 1970-01-05 (day 4),
`getWeekDateRanges` returns a non-empty list (it checks only parseability,
not inversion, and its overlap test passes for the aligned week). -/
theorem getWeekDateRanges_inverted_counterexample :
    (4 : Int) < 6 ∧
      (getWeekDateRanges (some 6) (some 4)).map (fun r => r.weekNumber) = [1] := by
  constructor
  · decide
  · decide

/-- C5, amended.  For unparseable dates all three computations degrade to
empty/zero results, and on an inverted range `calculateInstructionalStats`
returns zero counts and `generateEmptyWeeks` returns the empty list — but
`getWeekDateRanges` performs no inversion check (see the counterexample). -/
theorem degrade_on_invalid_inputs (s e : Int) (bd : List BlockedDate)
    (bw : List BlockedWeek) :
    (calculateInstructionalStats none (some e) bd bw = ⟨0, 0⟩) ∧
    (calculateInstructionalStats (some s) none bd bw = ⟨0, 0⟩) ∧
    (calculateInstructionalStats none none bd bw = ⟨0, 0⟩) ∧
    (e < s → calculateInstructionalStats (some s) (some e) bd bw = ⟨0, 0⟩) ∧
    (generateEmptyWeeks none (some e) bd bw = []) ∧
    (generateEmptyWeeks (some s) none bd bw = []) ∧
    (generateEmptyWeeks none none bd bw = []) ∧
    (e < s → generateEmptyWeeks (some s) (some e) bd bw = []) ∧
    (getWeekDateRanges none (some e) = []) ∧
    (getWeekDateRanges (some s) none = []) ∧
    (getWeekDateRanges none none = []) := by
  refine ⟨rfl, rfl, rfl, ?_, rfl, rfl, rfl, ?_, rfl, rfl, rfl⟩
  · intro h
    simp only [calculateInstructionalStats, if_pos h]
  · intro h
    unfold generateEmptyWeeks
    exact buildWeeksAux_inverted s e bd bw h (rawWeekStarts s e) 1

/-- C5 amended, witness at the inverted range of the counterexample:
the stats are zero and the generated week list is empty there. -/
theorem degrade_on_invalid_inputs_witness :
    calculateInstructionalStats (some 6) (some 4) [] [] = ⟨0, 0⟩ ∧
      generateEmptyWeeks (some 6) (some 4) [] [] = [] :=
  ⟨(degrade_on_invalid_inputs 6 4 [] []).2.2.2.1 (by decide),
    (degrade_on_invalid_inputs 6 4 [] []).2.2.2.2.2.2.2.1 (by decide)⟩

/-! ### C6: blocked days are untouched by the lesson packer -/

lemma clearDay_isBlocked (d : DayPlan) : (clearDay d).isBlocked = d.isBlocked := rfl

lemma distStep_blocked (lessons : List Lesson) (st : DistState) (d : DayPlan)
    (h : d.isBlocked = true) : distStep lessons st d = (clearDay d, st) := by
  simp only [distStep]
  rw [if_pos]
  rw [clearDay_isBlocked]
  exact h

lemma distStep_fst_cases (lessons : List Lesson) (st : DistState) (d : DayPlan) :
    (distStep lessons st d).1 = clearDay d ∨
      (d.isBlocked = false ∧ ∃ l, lessons.get? st.lessonIdx = some l ∧
        (distStep lessons st d).1 =
          { clearDay d with lessonId := some l.id, lessonName := some l.name }) := by
  simp only [distStep]
  by_cases hb : (clearDay d).isBlocked = true
  · rw [if_pos hb]
    exact Or.inl rfl
  · rw [if_neg hb]
    rw [clearDay_isBlocked] at hb
    have hb' : d.isBlocked = false := by
      cases h : d.isBlocked
      · rfl
      · exact absurd h hb
    cases hg : lessons.get? st.lessonIdx with
    | none => exact Or.inl rfl
    | some l =>
      simp only [hg]
      by_cases hth : effThreshold l ≤ ((st.dayInLessonCounter + 1 : Nat) : ℚ)
      · rw [if_pos hth]
        exact Or.inr ⟨hb', l, rfl, rfl⟩
      · rw [if_neg hth]
        exact Or.inr ⟨hb', l, rfl, rfl⟩

lemma distributeDays_blocked_clear (lessons : List Lesson) :
    ∀ (days : List DayPlan) (st : DistState) (d : DayPlan),
      d ∈ (distributeDays lessons st days).1 → d.isBlocked = true →
        d.lessonId = none ∧ d.lessonName = none := by
  intro days
  induction days with
  | nil => intro st d hd; exact absurd hd (List.not_mem_nil d)
  | cons a t ih =>
    intro st d hd hb
    simp only [distributeDays] at hd
    rcases List.mem_cons.mp hd with rfl | hd'
    · rcases distStep_fst_cases lessons st a with hc | ⟨hbf, l, -, hc⟩
      · rw [hc]
        exact ⟨rfl, rfl⟩
      · rw [hc] at hb
        have : a.isBlocked = true := hb
        rw [hbf] at this
        exact absurd this (by simp)
    · exact ih _ d hd' hb

/-- C6.  In the output of `distributeLessons` no blocked Day Plan carries a
lesson id or name, and one step of the day loop on a blocked day changes
neither cursor (it only clears the day's assignment). -/
theorem distributeLessons_blocked_untouched (weeks : List WeekPlan)
    (lessons : List Lesson) :
    (∀ w ∈ distributeLessons weeks lessons, ∀ d ∈ w.days,
      d.isBlocked = true → d.lessonId = none ∧ d.lessonName = none) ∧
    (∀ (st : DistState) (d : DayPlan), d.isBlocked = true →
      distStep lessons st d = (clearDay d, st)) := by
  constructor
  · unfold distributeLessons
    generalize (⟨0, 0⟩ : DistState) = st0
    induction weeks generalizing st0 with
    | nil =>
      intro w hw
      exact absurd hw (List.not_mem_nil w)
    | cons a t ih =>
      intro w hw d hd hb
      simp only [distributeWeeksAux] at hw
      rcases List.mem_cons.mp hw with rfl | hw'
      · exact distributeDays_blocked_clear lessons a.days st0 d hd hb
      · exact ih _ w hw' d hd hb
  · intro st d h
    exact distStep_blocked lessons st d h

/-- C6 witness: a stale assignment on a blocked day is cleared. -/
theorem distributeLessons_blocked_untouched_witness :
    (((distributeLessons
        [⟨some 1, "", "", [⟨0, "", true, none, some "stale", some "stale"⟩], false, none⟩]
        []).headD ⟨none, "", "", [], false, none⟩).days.headD dummyDay).lessonId = none :=
  ((distributeLessons_blocked_untouched
      [⟨some 1, "", "", [⟨0, "", true, none, some "stale", some "stale"⟩], false, none⟩] []).1
    ((distributeLessons
        [⟨some 1, "", "", [⟨0, "", true, none, some "stale", some "stale"⟩], false, none⟩]
        []).headD ⟨none, "", "", [], false, none⟩) (by decide)
    (((distributeLessons
        [⟨some 1, "", "", [⟨0, "", true, none, some "stale", some "stale"⟩], false, none⟩]
        []).headD ⟨none, "", "", [], false, none⟩).days.headD dummyDay) (by decide)
    (by decide)).1

/-! ### C3/C10: the lesson packer as consumption of an expanded id stream -/

/-- The stream of `(id, name)` slots the packer hands out: each lesson
contributes `pacingNat` copies of itself. -/
def expandLessons (lessons : List Lesson) : List (String × String) :=
  (lessons.map (fun l => List.replicate (pacingNat l) (l.id, l.name))).flatten

/-- Reference form of the day loop: consume one slot of the id stream per
unblocked day. -/
def distFlat : List (String × String) → List DayPlan → List DayPlan
  | _, [] => []
  | ids, d :: ds =>
    if (clearDay d).isBlocked then clearDay d :: distFlat ids ds
    else
      match ids with
      | [] => clearDay d :: distFlat [] ds
      | x :: rest =>
        { clearDay d with lessonId := some x.1, lessonName := some x.2 } ::
          distFlat rest ds

/-- The id stream still to be handed out from a cursor state. -/
def expandFrom (lessons : List Lesson) (st : DistState) : List (String × String) :=
  match lessons.drop st.lessonIdx with
  | [] => []
  | l :: rest =>
    List.replicate (pacingNat l - st.dayInLessonCounter) (l.id, l.name) ++
      (rest.map (fun l2 => List.replicate (pacingNat l2) (l2.id, l2.name))).flatten

lemma pacingNat_pos (l : Lesson) : 0 < pacingNat l := by
  unfold pacingNat
  omega

/-- The source's advancement test `counter >= (Number(pacing) || 1)` holds
exactly when the counter has reached `pacingNat`. -/
lemma advance_iff (l : Lesson) (c : Nat) :
    effThreshold l ≤ ((c + 1 : Nat) : ℚ) ↔ pacingNat l ≤ c + 1 := by
  unfold pacingNat
  constructor
  · intro h
    have hceil : Int.ceil (effThreshold l) ≤ ((c + 1 : Nat) : Int) := by
      rw [Int.ceil_le]
      push_cast
      push_cast at h
      exact h
    have := Int.toNat_le.mpr hceil
    omega
  · intro h
    have h2 : (Int.ceil (effThreshold l)).toNat ≤ c + 1 := by omega
    have h3 : Int.ceil (effThreshold l) ≤ ((c + 1 : Nat) : Int) := by
      rcases le_or_lt (Int.ceil (effThreshold l)) 0 with h4 | h4
      · omega
      · rw [← Int.toNat_le] at *
        omega
    rw [Int.ceil_le] at h3
    push_cast at h3
    push_cast
    exact h3

lemma expandFrom_zero (lessons : List Lesson) (j : Nat) :
    expandFrom lessons ⟨j, 0⟩ = (((lessons.drop j)).map
      (fun l => List.replicate (pacingNat l) (l.id, l.name))).flatten := by
  unfold expandFrom
  cases h : lessons.drop j with
  | nil => rfl
  | cons l rest =>
    simp only [List.map_cons, List.flatten_cons, Nat.sub_zero]

lemma expandFrom_zero_zero (lessons : List Lesson) :
    expandFrom lessons ⟨0, 0⟩ = expandLessons lessons := by
  rw [expandFrom_zero]
  rfl

/-- Simulation: one pass of the source's day loop equals the reference
stream consumption, for any cursor state that is mid-lesson-consistent. -/
lemma distributeDays_eq_distFlat (lessons : List Lesson) :
    ∀ (days : List DayPlan) (st : DistState),
      (∀ l, lessons.get? st.lessonIdx = some l →
        st.dayInLessonCounter < pacingNat l) →
      (distributeDays lessons st days).1 = distFlat (expandFrom lessons st) days := by
  intro days
  induction days with
  | nil => intro st hinv; rfl
  | cons d ds ih =>
    intro st hinv
    simp only [distributeDays, distFlat]
    by_cases hb : (clearDay d).isBlocked = true
    · rw [if_pos hb]
      have hstep : distStep lessons st d = (clearDay d, st) := by
        simp only [distStep]
        rw [if_pos hb]
      rw [hstep]
      exact congrArg _ (ih st hinv)
    · rw [if_neg hb]
      cases hg : lessons.get? st.lessonIdx with
      | none =>
        have hdrop : lessons.drop st.lessonIdx = [] := by
          rw [List.drop_eq_nil_iff]
          rw [List.get?_eq_none] at hg
          exact hg
        have hexp : expandFrom lessons st = [] := by
          unfold expandFrom
          rw [hdrop]
        rw [hexp]
        have hstep : distStep lessons st d = (clearDay d, st) := by
          simp only [distStep]
          rw [if_neg hb, hg]
        rw [hstep]
        have hexp2 : distFlat [] ds = distFlat (expandFrom lessons st) ds := by
          rw [hexp]
        rw [hexp2]
        exact congrArg _ (ih st hinv)
      | some l =>
        have hc : st.dayInLessonCounter < pacingNat l := hinv l hg
        have hlen : st.lessonIdx < lessons.length := by
          by_contra hcon
          have hnone : lessons.get? st.lessonIdx = none := List.get?_eq_none.mpr (by omega)
          rw [hnone] at hg
          exact Option.noConfusion hg
        have hdrop : lessons.drop st.lessonIdx = l :: lessons.drop (st.lessonIdx + 1) := by
          have := List.drop_eq_getElem_cons hlen
          rw [this]
          congr 1
          have := List.get?_eq_getElem? lessons st.lessonIdx
          rw [hg] at this
          rw [List.getElem?_eq_getElem hlen] at this
          exact (Option.some.injEq _ _ ▸ this.symm)
        have hexp0 : expandFrom lessons st =
            List.replicate (pacingNat l - st.dayInLessonCounter) (l.id, l.name) ++
              ((lessons.drop (st.lessonIdx + 1)).map
                (fun l2 => List.replicate (pacingNat l2) (l2.id, l2.name))).flatten := by
          unfold expandFrom
          rw [hdrop]
        have hrep : pacingNat l - st.dayInLessonCounter =
            (pacingNat l - st.dayInLessonCounter - 1) + 1 := by omega
        have hexp : expandFrom lessons st =
            (l.id, l.name) :: (List.replicate (pacingNat l - st.dayInLessonCounter - 1)
              (l.id, l.name) ++
              ((lessons.drop (st.lessonIdx + 1)).map
                (fun l2 => List.replicate (pacingNat l2) (l2.id, l2.name))).flatten) := by
          rw [hexp0]
          nth_rewrite 1 [hrep]
          rw [List.replicate_succ, List.cons_append]
        rw [hexp]
        have hstep : distStep lessons st d =
            ({ clearDay d with lessonId := some l.id, lessonName := some l.name },
              if effThreshold l ≤ ((st.dayInLessonCounter + 1 : Nat) : ℚ) then
                (⟨st.lessonIdx + 1, 0⟩ : DistState)
              else ⟨st.lessonIdx, st.dayInLessonCounter + 1⟩) := by
          simp only [distStep]
          rw [if_neg hb]
          simp only [hg]
          by_cases hth : effThreshold l ≤ ((st.dayInLessonCounter + 1 : Nat) : ℚ)
          · rw [if_pos hth, if_pos (by push_cast; push_cast at hth; exact hth)]
          · rw [if_neg hth, if_neg (by push_cast; push_cast at hth; exact hth)]
        rw [hstep]
        refine congrArg _ ?_
        by_cases hth : effThreshold l ≤ ((st.dayInLessonCounter + 1 : Nat) : ℚ)
        · rw [if_pos hth]
          have hreach : pacingNat l ≤ st.dayInLessonCounter + 1 := (advance_iff l _).mp hth
          have hz : pacingNat l - st.dayInLessonCounter - 1 = 0 := by omega
          rw [ih ⟨st.lessonIdx + 1, 0⟩ (by
            intro l2 _
            exact pacingNat_pos l2)]
          rw [expandFrom_zero]
          rw [hz, List.replicate_zero, List.nil_append]
        · rw [if_neg hth]
          have hreach : ¬ pacingNat l ≤ st.dayInLessonCounter + 1 := by
            intro hcon
            exact hth ((advance_iff l _).mpr hcon)
          rw [ih ⟨st.lessonIdx, st.dayInLessonCounter + 1⟩ (by
            intro l2 hg2
            have hg2' : lessons.get? st.lessonIdx = some l2 := hg2
            rw [hg] at hg2'
            have hl2 : l2 = l := (Option.some.inj hg2').symm
            show st.dayInLessonCounter + 1 < pacingNat l2
            rw [hl2]
            omega)]
          have hexp3 : expandFrom lessons ⟨st.lessonIdx, st.dayInLessonCounter + 1⟩ =
              List.replicate (pacingNat l - (st.dayInLessonCounter + 1)) (l.id, l.name) ++
                ((lessons.drop (st.lessonIdx + 1)).map
                  (fun l2 => List.replicate (pacingNat l2) (l2.id, l2.name))).flatten := by
            unfold expandFrom
            rw [hdrop]
          rw [hexp3]
          have hcnt : pacingNat l - (st.dayInLessonCounter + 1) =
              pacingNat l - st.dayInLessonCounter - 1 := by omega
          rw [hcnt]

lemma countAssigned_eq_countP (i : String) (ds : List DayPlan) :
    countAssigned i ds = List.countP (fun d => d.lessonId == some i) ds :=
  (List.countP_eq_length_filter _ _).symm

lemma unblockedCount_cons (d : DayPlan) (ds : List DayPlan) :
    unblockedCount (d :: ds) = (if d.isBlocked then 0 else 1) + unblockedCount ds := by
  unfold unblockedCount
  rw [List.filter_cons]
  cases h : d.isBlocked
  · simp [h, Nat.add_comm]
  · simp [h]

lemma countP_replicate {α : Type} (p : α → Bool) (a : α) (n : Nat) :
    List.countP p (List.replicate n a) = if p a then n else 0 := by
  induction n with
  | zero => simp
  | succ m ih =>
    rw [List.replicate_succ, List.countP_cons, ih]
    cases h : p a <;> simp [h]

lemma fst_mem_expand (lessons : List Lesson) (x : String × String)
    (hx : x ∈ expandLessons lessons) : x.1 ∈ lessons.map (fun l => l.id) := by
  unfold expandLessons at hx
  rw [List.mem_flatten] at hx
  obtain ⟨l', hl', hxl⟩ := hx
  rw [List.mem_map] at hl'
  obtain ⟨l, hl, rfl⟩ := hl'
  rw [List.mem_replicate] at hxl
  rw [List.mem_map]
  exact ⟨l, hl, by rw [hxl.2]⟩

/-- Counting one lesson's slots in the consumed prefix of the id stream. -/
lemma countP_take_expand (lessons : List Lesson)
    (hnd : (lessons.map (fun l => l.id)).Nodup) :
    ∀ (j : Nat) (l : Lesson), lessons.get? j = some l → ∀ D : Nat,
      List.countP (fun x => x.1 == l.id) ((expandLessons lessons).take D) =
        min (pacingNat l) (D - pacingSumTo lessons j) := by
  induction lessons with
  | nil => intro j l hg D; exact absurd hg (by simp)
  | cons l0 rest ih =>
    intro j l hg D
    rw [List.map_cons, List.nodup_cons] at hnd
    obtain ⟨hnd0, hndr⟩ := hnd
    have hsplit : expandLessons (l0 :: rest) =
        List.replicate (pacingNat l0) (l0.id, l0.name) ++ expandLessons rest := by
      unfold expandLessons
      rw [List.map_cons, List.flatten_cons]
    rw [hsplit, List.take_append_eq_append_take, List.countP_append,
      List.length_replicate]
    cases j with
    | zero =>
      rw [List.get?_cons_zero] at hg
      have hl : l = l0 := (Option.some.inj hg).symm
      subst hl
      rw [List.take_replicate, countP_replicate]
      have hsum0 : pacingSumTo (l :: rest) 0 = 0 := rfl
      have h2 : List.countP (fun x => x.1 == l.id)
          ((expandLessons rest).take (D - pacingNat l)) = 0 := by
        rw [List.countP_eq_zero]
        intro x hx
        have hmem : x ∈ expandLessons rest := List.mem_of_mem_take hx
        have hfst := fst_mem_expand rest x hmem
        intro hbeq
        rw [beq_iff_eq] at hbeq
        rw [hbeq] at hfst
        exact hnd0 hfst
      rw [h2, hsum0]
      rw [if_pos (by rw [beq_iff_eq])]
      omega
    | succ j' =>
      rw [List.get?_cons_succ] at hg
      have hlid : l.id ≠ l0.id := by
        intro hcon
        have : l.id ∈ rest.map (fun l2 => l2.id) := by
          rw [List.mem_map]
          exact ⟨l, List.get?_mem hg, rfl⟩
        rw [hcon] at this
        exact hnd0 this
      have h1 : List.countP (fun x => x.1 == l.id)
          ((List.replicate (pacingNat l0) (l0.id, l0.name)).take D) = 0 := by
        rw [List.take_replicate, countP_replicate]
        rw [if_neg (by rw [beq_iff_eq]; exact fun h => hlid h.symm)]
      have hsum : pacingSumTo (l0 :: rest) (j' + 1) =
          pacingNat l0 + pacingSumTo rest j' := by
        unfold pacingSumTo
        rw [List.take_succ_cons, List.map_cons, List.sum_cons]
      rw [h1, hsum, ih hndr j' l hg (D - pacingNat l0)]
      have : D - pacingNat l0 - pacingSumTo rest j' =
          D - (pacingNat l0 + pacingSumTo rest j') := by omega
      rw [this]
      omega

lemma countAssigned_distFlat (i : String) :
    ∀ (days : List DayPlan) (ids : List (String × String)),
      countAssigned i (distFlat ids days) =
        List.countP (fun x => x.1 == i) (ids.take (unblockedCount days)) := by
  intro days
  induction days with
  | nil =>
    intro ids
    have h0 : unblockedCount ([] : List DayPlan) = 0 := rfl
    rw [h0, List.take_zero]
    rfl
  | cons d ds ih =>
    intro ids
    simp only [distFlat]
    by_cases hb : (clearDay d).isBlocked = true
    · rw [if_pos hb]
      have hdb : d.isBlocked = true := by rw [← clearDay_isBlocked]; exact hb
      rw [unblockedCount_cons, hdb, if_pos rfl, Nat.zero_add]
      rw [countAssigned_eq_countP, List.countP_cons]
      have hfalse : ((clearDay d).lessonId == some i) = false := rfl
      rw [hfalse]
      rw [← countAssigned_eq_countP]
      rw [ih ids]
      simp
    · rw [if_neg hb]
      have hdb : d.isBlocked = false := by
        rw [← clearDay_isBlocked]
        cases h : (clearDay d).isBlocked
        · rfl
        · exact absurd h hb
      rw [unblockedCount_cons, hdb, if_neg (by simp)]
      cases ids with
      | nil =>
        rw [countAssigned_eq_countP, List.countP_cons]
        have hfalse : ((clearDay d).lessonId == some i) = false := rfl
        rw [hfalse]
        rw [← countAssigned_eq_countP, ih []]
        simp
      | cons x rest =>
        have htake : (x :: rest).take (1 + unblockedCount ds) =
            x :: rest.take (unblockedCount ds) := by
          rw [Nat.add_comm, List.take_succ_cons]
        rw [htake]
        rw [countAssigned_eq_countP, List.countP_cons, List.countP_cons]
        rw [← countAssigned_eq_countP, ih rest]
        rfl

lemma distributeDays_fst_cons (lessons : List Lesson) (st : DistState)
    (d : DayPlan) (ds : List DayPlan) :
    (distributeDays lessons st (d :: ds)).1 =
      (distStep lessons st d).1 ::
        (distributeDays lessons (distStep lessons st d).2 ds).1 := rfl

lemma distributeDays_snd_cons (lessons : List Lesson) (st : DistState)
    (d : DayPlan) (ds : List DayPlan) :
    (distributeDays lessons st (d :: ds)).2 =
      (distributeDays lessons (distStep lessons st d).2 ds).2 := rfl

lemma distributeDays_append (lessons : List Lesson) :
    ∀ (a b : List DayPlan) (st : DistState),
      (distributeDays lessons st (a ++ b)).1 =
        (distributeDays lessons st a).1 ++
          (distributeDays lessons (distributeDays lessons st a).2 b).1 := by
  intro a
  induction a with
  | nil => intro b st; rfl
  | cons d t ih =>
    intro b st
    rw [List.cons_append, distributeDays_fst_cons, ih]
    rw [distributeDays_fst_cons, distributeDays_snd_cons, List.cons_append]

lemma distributeDays_append_snd (lessons : List Lesson) :
    ∀ (a b : List DayPlan) (st : DistState),
      (distributeDays lessons st (a ++ b)).2 =
        (distributeDays lessons (distributeDays lessons st a).2 b).2 := by
  intro a
  induction a with
  | nil => intro b st; rfl
  | cons d t ih =>
    intro b st
    rw [List.cons_append, distributeDays_snd_cons, ih, distributeDays_snd_cons]

lemma planDays_distributeWeeksAux (lessons : List Lesson) :
    ∀ (ws : List WeekPlan) (st : DistState),
      planDays (distributeWeeksAux lessons st ws) =
        (distributeDays lessons st (planDays ws)).1 := by
  intro ws
  induction ws with
  | nil => intro st; rfl
  | cons w t ih =>
    intro st
    simp only [distributeWeeksAux, planDays_cons]
    rw [ih]
    show _ ++ _ = (distributeDays lessons st (w.days ++ planDays t)).1
    rw [distributeDays_append]

/-- Master count: the number of days carrying lesson `j`'s id after
distribution is its effective consumption `pacingNat`, clipped by the
unblocked days remaining after its predecessors. -/
lemma distributeLessons_count (weeks : List WeekPlan) (lessons : List Lesson)
    (hnd : (lessons.map (fun l => l.id)).Nodup) (j : Nat) (l : Lesson)
    (hg : lessons.get? j = some l) :
    countAssigned l.id (planDays (distributeLessons weeks lessons)) =
      min (pacingNat l) (unblockedCount (planDays weeks) - pacingSumTo lessons j) := by
  unfold distributeLessons
  rw [planDays_distributeWeeksAux]
  rw [distributeDays_eq_distFlat lessons (planDays weeks) ⟨0, 0⟩
    (fun l0 _ => pacingNat_pos l0)]
  rw [expandFrom_zero_zero]
  rw [countAssigned_distFlat]
  exact countP_take_expand lessons hnd j l hg (unblockedCount (planDays weeks))

lemma pacingNat_eq_of_pos_int (l : Lesson) (n : Nat) (hn : 0 < n)
    (hp : l.pacing = some (n : ℚ)) : pacingNat l = n := by
  unfold pacingNat effThreshold
  simp only [hp]
  have hnz : ((n : ℚ)) ≠ 0 := by
    have : (0 : ℚ) < (n : ℚ) := by exact_mod_cast hn
    exact ne_of_gt this
  rw [if_neg hnz]
  have hceil : Int.ceil ((n : ℚ)) = (n : Int) := Int.ceil_natCast n
  rw [hceil]
  omega

lemma pacingNat_degenerate (l : Lesson)
    (h : l.pacing = none ∨ ∃ q : ℚ, l.pacing = some q ∧ q < 1) :
    effThreshold l ≤ 1 ∧ pacingNat l = 1 := by
  have h1 : effThreshold l ≤ 1 := by
    rcases h with h | ⟨q, hq, hq1⟩
    · unfold effThreshold
      simp only [h]
      exact le_refl 1
    · unfold effThreshold
      simp only [hq]
      by_cases h0 : q = 0
      · rw [if_pos h0]
      · rw [if_neg h0]
        exact le_of_lt hq1
  refine ⟨h1, ?_⟩
  unfold pacingNat
  have hceil : Int.ceil (effThreshold l) ≤ 1 := by
    rw [show (1 : Int) = ((1 : Nat) : Int) from rfl, ← Int.toNat_le]
    have : Int.ceil (effThreshold l) ≤ ((1 : Nat) : Int) := by
      rw [Int.ceil_le]
      push_cast
      exact h1
    omega
  omega

lemma distributeDays_length (lessons : List Lesson) :
    ∀ (days : List DayPlan) (st : DistState),
      (distributeDays lessons st days).1.length = days.length := by
  intro days
  induction days with
  | nil => intro st; rfl
  | cons d t ih =>
    intro st
    rw [distributeDays_fst_cons, List.length_cons, List.length_cons, ih]

/-- C3.  With every pacing a positive integer and distinct lesson ids,
each lesson's count of assigned Day Plans equals its pacing clipped by the
unblocked days left after its predecessors: exactly `n` while days remain,
fewer once the unblocked days are exhausted, and zero after that.  (Each
Day Plan carries at most one lesson id by construction: `lessonId` is a
single optional field.) -/
theorem distributeLessons_pacing_exact (weeks : List WeekPlan)
    (lessons : List Lesson)
    (hnd : (lessons.map (fun l => l.id)).Nodup)
    (hpos : ∀ l ∈ lessons, ∃ n : Nat, 0 < n ∧ l.pacing = some (n : ℚ)) :
    ∀ (j : Nat) (l : Lesson), lessons.get? j = some l →
      ∀ n : Nat, 0 < n → l.pacing = some (n : ℚ) →
        countAssigned l.id (planDays (distributeLessons weeks lessons)) =
          min n (unblockedCount (planDays weeks) - pacingSumTo lessons j) ∧
        (pacingSumTo lessons j + n ≤ unblockedCount (planDays weeks) →
          countAssigned l.id (planDays (distributeLessons weeks lessons)) = n) ∧
        (unblockedCount (planDays weeks) ≤ pacingSumTo lessons j →
          countAssigned l.id (planDays (distributeLessons weeks lessons)) = 0) := by
  intro j l hg n hn hp
  have hpn : pacingNat l = n := pacingNat_eq_of_pos_int l n hn hp
  have h := distributeLessons_count weeks lessons hnd j l hg
  rw [hpn] at h
  refine ⟨h, fun hle => ?_, fun hge => ?_⟩
  · rw [h]
    omega
  · rw [h]
    omega

/-- C3 witness — the spec's scenario D: lessons with pacing 2 and 3 over
5 unblocked days; the second lesson receives exactly its 3 days. -/
theorem distributeLessons_pacing_exact_witness :
    countAssigned "B" (planDays (distributeLessons
      [⟨some 1, "W", "", [⟨0, "", false, none, none, none⟩,
        ⟨1, "", false, none, none, none⟩, ⟨2, "", false, none, none, none⟩,
        ⟨3, "", false, none, none, none⟩, ⟨4, "", false, none, none, none⟩],
        false, none⟩]
      [⟨"A", "a", "c", some 2⟩, ⟨"B", "b", "c", some 3⟩])) = 3 :=
  (distributeLessons_pacing_exact
    [⟨some 1, "W", "", [⟨0, "", false, none, none, none⟩,
      ⟨1, "", false, none, none, none⟩, ⟨2, "", false, none, none, none⟩,
      ⟨3, "", false, none, none, none⟩, ⟨4, "", false, none, none, none⟩],
      false, none⟩]
    [⟨"A", "a", "c", some 2⟩, ⟨"B", "b", "c", some 3⟩]
    (by decide)
    (by
      intro l hl
      rcases List.mem_cons.mp hl with rfl | hl2
      · exact ⟨2, by norm_num, by norm_num⟩
      · rcases List.mem_cons.mp hl2 with rfl | hl3
        · exact ⟨3, by norm_num, by norm_num⟩
        · exact absurd hl3 (List.not_mem_nil _))
    1 ⟨"B", "b", "c", some 3⟩ (by decide) 3 (by norm_num) (by norm_num)).2.1
    (by decide)

/-- C10.  `distributeLessons` is total (it preserves the day count for
every input), and a lesson whose pacing is NaN, zero, negative, or a
fraction below one has effective threshold at most 1, consumes exactly one
unblocked day when one remains for it, and is never assigned more. -/
theorem distributeLessons_degenerate_pacing (weeks : List WeekPlan)
    (lessons : List Lesson)
    (hnd : (lessons.map (fun l => l.id)).Nodup) :
    ((planDays (distributeLessons weeks lessons)).length =
      (planDays weeks).length) ∧
    ∀ (j : Nat) (l : Lesson), lessons.get? j = some l →
      (l.pacing = none ∨ ∃ q : ℚ, l.pacing = some q ∧ q < 1) →
      effThreshold l ≤ 1 ∧ pacingNat l = 1 ∧
      countAssigned l.id (planDays (distributeLessons weeks lessons)) =
        min 1 (unblockedCount (planDays weeks) - pacingSumTo lessons j) := by
  constructor
  · unfold distributeLessons
    rw [planDays_distributeWeeksAux, distributeDays_length]
  · intro j l hg hdeg
    obtain ⟨h1, hpn⟩ := pacingNat_degenerate l hdeg
    have h := distributeLessons_count weeks lessons hnd j l hg
    rw [hpn] at h
    exact ⟨h1, hpn, h⟩

/-- C10 witness: a lesson with NaN pacing receives exactly one of the two
unblocked days. -/
theorem distributeLessons_degenerate_pacing_witness :
    countAssigned "A" (planDays (distributeLessons
      [⟨some 1, "W", "", [⟨0, "", false, none, none, none⟩,
        ⟨1, "", false, none, none, none⟩], false, none⟩]
      [⟨"A", "a", "c", none⟩])) = 1 :=
  (((distributeLessons_degenerate_pacing
      [⟨some 1, "W", "", [⟨0, "", false, none, none, none⟩,
        ⟨1, "", false, none, none, none⟩], false, none⟩]
      [⟨"A", "a", "c", none⟩] (by decide)).2
    0 ⟨"A", "a", "c", none⟩ (by decide) (Or.inl rfl)).2.2).trans (by decide)

end Planner
